import Mathlib

/-!
Shallow embedding of the `gland` compositor core (src/lib.rs, src/compositor.rs,
src/jobs.rs) and proofs about its registry, dispatch, render and run-loop
behaviour.

Modelling conventions:
* `Id` values are modelled as plain `Nat` (the hash derivation of `Id` is not
  needed by any statement below); `LayerId(i16)` is modelled as `Int`.
* A `Box<dyn Component<S, E>>` trait object is modelled by the structure
  `Component`: `tyid` stands for the value's runtime `TypeId` (what
  `Any::downcast` checks), `payload` for its mutable data, `handle_event` for
  the behaviour of the `handle_event` method (it receives the current payload,
  the held event and the shared state and returns the new payload, the event
  left in the `EventAccess`, the new state and the callbacks pushed via
  `Context::add_callback`).  `should_update` models the inherent
  `should_update` method the `forward_view!` macro expects on user components;
  the `Component` trait itself declares no such method.
* Callbacks (`Box<dyn FnOnce(&mut Compositor)>`) are deep-embedded as `Cmd`,
  interpreted by `applyCmd`; the constructors cover the compositor mutations
  exercised here (`exit`, state mutation, `remove_all`).
* The `BTreeMap<LayerId, Vec<_>>` of layers is modelled as an association list
  ordered by key, kept sorted by `entryOrDefault` (the model of
  `.entry(layer_id).or_default()`).
* Functions that can panic in Rust (`remove_at`'s `.unwrap()` on a missing
  layer) return `Option`, `none` standing for the panic.
-/

namespace Gland

/-- Model of `Event<E>` (src/lib.rs): `User(E)`, `Terminal(raw)` with the raw
crossterm event abstracted to a `Nat`, `Tick`, `Exit`, and the `None`
placeholder left behind by consumption. -/
inductive Event (E : Type) where
  | user (e : E)
  | terminal (t : Nat)
  | tick
  | exit
  | none
  deriving DecidableEq

/-- `matches!(self.event, Event::None)`, the body of `EventAccess::is_consumed`. -/
def isConsumedB {E : Type} : Event E → Bool
  | Event.none => true
  | _ => false

/-- Model of `EventAccess<E>` (src/lib.rs): a wrapper holding exactly one event. -/
structure EventAccess (E : Type) where
  event : Event E
  deriving DecidableEq

namespace EventAccess

variable {E : Type}

/-- `EventAccess::peek`. -/
def peek (a : EventAccess E) : Event E := a.event

/-- `EventAccess::consume`: `replace(&mut self.event, Event::None)`; returns the
old event paired with the updated access. -/
def consume (a : EventAccess E) : Event E × EventAccess E :=
  (a.event, ⟨Event.none⟩)

/-- `EventAccess::replace`: substitutes the held event, returning the old one. -/
def replace (a : EventAccess E) (e : Event E) : Event E × EventAccess E :=
  (a.event, ⟨e⟩)

/-- `EventAccess::is_consumed`. -/
def is_consumed (a : EventAccess E) : Bool := isConsumedB a.event

end EventAccess

/-- Deep embedding of the callbacks (`Callback<S, E> = Box<dyn FnOnce(&mut
Compositor<S, E>)>`) used in the statements below: a callback may call
`Compositor::exit`, mutate the shared state, or call `Compositor::remove_all`. -/
inductive Cmd (S : Type) where
  | exit
  | modifyState (f : S → S)
  | removeAllCmd (i : Nat)

/-- Result of one `handle_event` call on a component: the component's new
payload (its `&mut self` data), the event left in the `EventAccess`, the new
shared state, and the callbacks appended to `Context::callbacks` in order. -/
structure HRes (S E : Type) where
  payload : Nat
  event : Event E
  state : S
  cbs : List (Cmd S)

/-- Model of a mounted `Box<dyn Component<S, E>>`: stable `id`, runtime type
tag `tyid`, mutable `payload`, the `handle_event` behaviour, and the
user-level `should_update` hook (not part of the trait, see module comment). -/
structure Component (S E : Type) where
  id : Nat
  tyid : Nat
  payload : Nat
  handle_event : Nat → Event E → S → HRes S E
  should_update : S → Bool

/-- The layer registry: `BTreeMap<LayerId, Vec<Box<dyn Component>>>` as an
association list sorted by ascending key. -/
abbrev Layers (S E : Type) := List (Int × List (Component S E))

variable {S E : Type}

/-- `BTreeMap::get(&layer_id)`: the layer stored under a key, if the key exists. -/
def findLayer : Layers S E → Int → Option (List (Component S E))
  | [], _ => Option.none
  | (k, v) :: rest, l => if k = l then Option.some v else findLayer rest l

/-- The layer stored under a key, defaulting to the empty layer. -/
def getLayerD (reg : Layers S E) (l : Int) : List (Component S E) :=
  (findLayer reg l).getD []

/-- `BTreeMap::entry(layer_id).or_default()`: ensures the key exists (bound to
the empty vector when absent), keeping the keys sorted ascending. -/
def entryOrDefault : Layers S E → Int → Layers S E
  | [], l => [(l, [])]
  | (k, v) :: rest, l =>
    if l < k then (l, []) :: (k, v) :: rest
    else if l = k then (k, v) :: rest
    else (k, v) :: entryOrDefault rest l

/-- Replaces the sequence stored under an existing key, leaving every other
entry unchanged. -/
def setLayer : Layers S E → Int → List (Component S E) → Layers S E
  | [], _, _ => []
  | (k, w) :: rest, l, v =>
    (if k = l then (k, v) else (k, w)) :: setLayer rest l v

/-- `Vec::swap_remove(p)`: removes the element at `p`, moving the last element
into its place. -/
def swapRemove {α : Type} (l : List α) (p : Nat) : List α :=
  match l.getLast? with
  | Option.none => []
  | Option.some a => (l.set p a).dropLast

/-- `Iterator::position`: index of the first element satisfying the predicate. -/
def findPos {α : Type} (q : α → Bool) : List α → Option Nat
  | [] => Option.none
  | x :: xs => if q x then Option.some 0 else (findPos q xs).map (· + 1)

/-- `Compositor::insert_at` (src/compositor.rs:99-112).  The returned option is
the `Result<(), C>`: `some c` models `Err(component)` (id collision, component
handed back un-mounted), `none` models `Ok(())`.  Note the `entry(..).or_default()`
runs before the collision check, so the (empty) layer entry is created even on
failure. -/
def insert_at (reg : Layers S E) (l : Int) (c : Component S E) :
    Layers S E × Option (Component S E) :=
  let reg1 := entryOrDefault reg l
  let layer := getLayerD reg1 l
  if layer.any (fun x => x.id == c.id) then (reg1, Option.some c)
  else (setLayer reg1 l (layer ++ [c]), Option.none)

/-- `Compositor::replace_at` (src/compositor.rs:114-119): retains the
components with a different id, then pushes the new one at the end. -/
def replace_at (reg : Layers S E) (l : Int) (c : Component S E) : Layers S E :=
  let reg1 := entryOrDefault reg l
  setLayer reg1 l ((getLayerD reg1 l).filter (fun x => !(x.id == c.id)) ++ [c])

/-- `Compositor::remove_all` (src/compositor.rs:121-126). -/
def remove_all (reg : Layers S E) (i : Nat) : Layers S E :=
  reg.map (fun kv => (kv.1, kv.2.filter (fun c => !(c.id == i))))

/-- `Compositor::remove_at` (src/compositor.rs:174-181): `none` models the
panic of `self.layers.get_mut(&layer_id).unwrap()` when the layer key was never
created; otherwise the components with the given id are retained away and the
function returns `true` unconditionally. -/
def remove_at (reg : Layers S E) (l : Int) (i : Nat) : Option (Layers S E × Bool) :=
  match findLayer reg l with
  | Option.none => Option.none
  | Option.some layer =>
    Option.some (setLayer reg l (layer.filter (fun c => !(c.id == i))), true)

/-- `Compositor::take_at` (src/compositor.rs:153-172): find the position of the
id, `swap_remove` the boxed component, attempt the downcast (`tyid` check); on
mismatch push the component back at the end of the layer and return `none`. -/
def take_at (reg : Layers S E) (l : Int) (ty : Nat) (i : Nat) :
    Layers S E × Option (Component S E) :=
  match findLayer reg l with
  | Option.none => (reg, Option.none)
  | Option.some layer =>
    match findPos (fun c => c.id == i) layer with
    | Option.none => (reg, Option.none)
    | Option.some p =>
      match layer[p]? with
      | Option.none => (reg, Option.none)
      | Option.some c =>
        if c.tyid = ty then (setLayer reg l (swapRemove layer p), Option.some c)
        else (setLayer reg l (swapRemove layer p ++ [c]), Option.none)

/-- `Compositor::get_at` (src/compositor.rs:129-136): type-checked lookup;
absent id and mismatched concrete type both yield `none`. -/
def get_at (reg : Layers S E) (l : Int) (ty : Nat) (i : Nat) : Option (Component S E) :=
  match findLayer reg l with
  | Option.none => Option.none
  | Option.some layer =>
    match layer.find? (fun c => c.id == i) with
    | Option.none => Option.none
    | Option.some c => if c.tyid = ty then Option.some c else Option.none

/-- Model of the `Compositor` fields the loop body mutates: the layer registry,
the shared state and the `exit` flag.  The configured streams and the tick
timeout live in `setupSources` below. -/
structure Compositor (S E : Type) where
  layers : Layers S E
  state : S
  exit : Bool

/-- Interpretation of a callback over the compositor (`cb(&mut self)`). -/
def applyCmd : Cmd S → Compositor S E → Compositor S E
  | Cmd.exit, comp => { comp with exit := true }
  | Cmd.modifyState f, comp => { comp with state := f comp.state }
  | Cmd.removeAllCmd i, comp => { comp with layers := remove_all comp.layers i }

/-- Model of `Resume<S, E>` (src/compositor.rs:71-75): either an event from a
merged stream or a callback delivered on the job channel. -/
inductive Resume (S E : Type) where
  | event (e : Event E)
  | jobCallback (c : Cmd S)

/-- Observable actions of one run of the loop body: `handled i e` records a
`handle_event` call on the component with id `i` while the `EventAccess` held
`e`; `jobCb` the application of a job-delivered callback; `dispatchCb` the
application of one dispatch-queued callback; `render ids` a `terminal.draw`
pass whose `render_widget`/`view` calls cover exactly the listed component ids
in order. -/
inductive TraceItem (E : Type) where
  | handled (i : Nat) (e : Event E)
  | jobCb
  | dispatchCb
  | render (ids : List Nat)
  deriving DecidableEq

/-- Outcome of dispatching one event through a sequence of components: the
updated components (in place), the final held event and state, the queued
callbacks, the trace of `handle_event` calls, and whether the iteration was
stopped by `access.is_consumed()`. -/
structure DispatchResult (S E : Type) where
  comps : List (Component S E)
  event : Event E
  state : S
  cbs : List (Cmd S)
  trace : List (TraceItem E)
  stop : Bool

/-- The inner loop of src/compositor.rs:290-298 over one layer's components
(also the behaviour over any flattened component sequence): call
`handle_event`, then break the moment `access.is_consumed()` holds. -/
def dispatchComps : List (Component S E) → Event E → S → DispatchResult S E
  | [], e, s => ⟨[], e, s, [], [], false⟩
  | c :: rest, e, s =>
    let r := c.handle_event c.payload e s
    let c1 := { c with payload := r.payload }
    if isConsumedB r.event then
      ⟨c1 :: rest, r.event, r.state, r.cbs, [TraceItem.handled c.id e], true⟩
    else
      let d := dispatchComps rest r.event r.state
      ⟨c1 :: d.comps, d.event, d.state, r.cbs ++ d.cbs,
        TraceItem.handled c.id e :: d.trace, d.stop⟩

/-- Like `DispatchResult` but for the labelled outer loop over layers. -/
structure LayersResult (S E : Type) where
  layers : Layers S E
  event : Event E
  state : S
  cbs : List (Cmd S)
  trace : List (TraceItem E)
  stop : Bool

/-- The labelled outer loop of src/compositor.rs:290-298: visit the given
layer list in order (the caller passes `layers.reverse`, i.e. descending
`LayerId`), breaking out of both loops once the event is consumed. -/
def dispatchLayers : Layers S E → Event E → S → LayersResult S E
  | [], e, s => ⟨[], e, s, [], [], false⟩
  | (k, cs) :: rest, e, s =>
    let r := dispatchComps cs e s
    if r.stop then ⟨(k, r.comps) :: rest, r.event, r.state, r.cbs, r.trace, true⟩
    else
      let d := dispatchLayers rest r.event r.state
      ⟨(k, r.comps) :: d.layers, d.event, d.state, r.cbs ++ d.cbs,
        r.trace ++ d.trace, d.stop⟩

/-- One full dispatch pass: `for layer in self.layers.values_mut().rev()`,
then reinstall the state taken out of the `Context`. -/
def dispatchPass (comp : Compositor S E) (e : Event E) :
    Compositor S E × List (Cmd S) × List (TraceItem E) :=
  let d := dispatchLayers comp.layers.reverse e comp.state
  ({ comp with layers := d.layers.reverse, state := d.state }, d.cbs, d.trace)

/-- Draw order of the render pass (src/compositor.rs:313-325):
`self.layers.values().flat_map(|l| l.iter())`, i.e. ascending `LayerId`,
insertion order within a layer; every listed component's `view` is called
with the full terminal area. -/
def renderIds (reg : Layers S E) : List Nat :=
  (reg.map (fun kv => kv.2)).flatten.map (fun c => c.id)

/-- The common tail of one loop-body iteration (src/compositor.rs:280-325),
after the `Resume` has been resolved into a compositor `c0` and an event `e`
(`pre` carries the trace of the resolution step): run the dispatch pass, apply
the queued callbacks in FIFO order, then either break on the `exit` flag or
render. -/
def cycleCore (c0 : Compositor S E) (e : Event E) (pre : List (TraceItem E)) :
    Compositor S E × List (TraceItem E) × Bool :=
  let d := dispatchPass c0 e
  let c2 := d.2.1.foldl (fun c cb => applyCmd cb c) d.1
  let tr := pre ++ d.2.2 ++ d.2.1.map (fun _ => TraceItem.dispatchCb)
  if c2.exit then (c2, tr, true)
  else (c2, tr ++ [TraceItem.render (renderIds c2.layers)], false)

/-- One iteration of the `while let Some(event) = flux.next().await` loop
(src/compositor.rs:271-326): a `Resume::Event` enters the iteration as-is; a
`Resume::JobCallback` is run against the compositor immediately
(`callback(&mut self)`) and the iteration proceeds with `Event::None`.
Returns the new compositor, the trace, and whether the loop breaks. -/
def cycle (comp : Compositor S E) (r : Resume S E) :
    Compositor S E × List (TraceItem E) × Bool :=
  match r with
  | Resume.event ev => cycleCore comp ev []
  | Resume.jobCallback cb =>
      cycleCore (applyCmd cb comp) Event.none [TraceItem.jobCb]

/-- The run loop over the realized sequence of items dequeued from the merged
streams; stops early when a cycle sets the `exit` flag. -/
def runLoop : Compositor S E → List (Resume S E) → Compositor S E × List (TraceItem E)
  | comp, [] => (comp, [])
  | comp, r :: rest =>
    let res := cycle comp r
    if res.2.2 then (res.1, res.2.1)
    else
      let res2 := runLoop res.1 rest
      (res2.1, res.2.1 ++ res2.2)

/-- The event sources assembled by `run` (src/compositor.rs:250-262), each as
the finite list of items it contributed during a run: the user-configured
streams; the periodic tick stream, present only when the timeout is nonzero
(`intervalTicks` is however many of its ticks were drawn); the one-shot
initial `Event::Tick` stream pushed unconditionally; and the job channel. -/
def setupSources (timeout : Nat) (intervalTicks : Nat)
    (user : List (List (Event E))) (jobResults : List (Cmd S)) :
    List (List (Resume S E)) :=
  (user.map (fun l => l.map Resume.event))
    ++ (if timeout = 0 then []
        else [(List.replicate intervalTicks (Event.tick : Event E)).map Resume.event])
    ++ [[Resume.event Event.tick]]
    ++ [jobResults.map Resume.jobCallback]

/-- A list is a fair-or-unfair interleaving of the given sources: each step
dequeues the head of one source; the relative order within each source is
preserved.  This is the set of sequences `select_all` can deliver. -/
inductive MergeOf {α : Type} : List (List α) → List α → Prop where
  | done (srcs : List (List α)) (h : ∀ l ∈ srcs, l = []) : MergeOf srcs []
  | step (srcs : List (List α)) (i : Nat) (x : α) (rest : List α) (out : List α)
      (hg : srcs[i]? = Option.some (x :: rest)) (hm : MergeOf (srcs.set i rest) out) :
      MergeOf srcs (x :: out)

/-- The components a dispatch pass visits, in visit order: layers from the
end of the (ascending-key) registry to the front — i.e. highest `LayerId`
first — and insertion order within each layer. -/
def flattenDesc (reg : Layers S E) : List (Component S E) :=
  (reg.reverse.map (fun kv => kv.2)).flatten

/-- Flattening a layer list in its given order. -/
def flattenLayers (reg : Layers S E) : List (Component S E) :=
  (reg.map (fun kv => kv.2)).flatten

/-- The ids of the components whose `handle_event` was called, in call order. -/
def visitedIds (tr : List (TraceItem E)) : List Nat :=
  tr.filterMap (fun t =>
    match t with
    | TraceItem.handled i _ => Option.some i
    | _ => Option.none)

/-- The registry's layer keys in storage order. -/
def keys (reg : Layers S E) : List Int := reg.map (fun kv => kv.1)

/-- Whether a merged-stream item is an `Event::Tick`. -/
def isTickResume : Resume S E → Bool
  | Resume.event Event.tick => true
  | _ => false

/-- The registry mutations whose sequences the per-layer id-uniqueness
invariant quantifies over. -/
inductive Op (S E : Type) where
  | insertOp (l : Int) (c : Component S E)
  | replaceOp (l : Int) (c : Component S E)
  | removeOp (l : Int) (i : Nat)
  | removeAllOp (i : Nat)
  | takeOp (l : Int) (ty : Nat) (i : Nat)

/-- Applies one registry operation; `none` models a panic (`remove_at` on a
never-created layer). -/
def applyOp : Op S E → Layers S E → Option (Layers S E)
  | Op.insertOp l c, reg => Option.some (insert_at reg l c).1
  | Op.replaceOp l c, reg => Option.some (replace_at reg l c)
  | Op.removeOp l i, reg => (remove_at reg l i).map (fun r => r.1)
  | Op.removeAllOp i, reg => Option.some (remove_all reg i)
  | Op.takeOp l ty i, reg => Option.some (take_at reg l ty i).1

/-- Runs a sequence of registry operations, propagating panics. -/
def runOps : List (Op S E) → Layers S E → Option (Layers S E)
  | [], reg => Option.some reg
  | op :: rest, reg =>
    match applyOp op reg with
    | Option.none => Option.none
    | Option.some reg1 => runOps rest reg1

/-- Within every layer, component ids are unique. -/
def UniqueIds (reg : Layers S E) : Prop :=
  ∀ kv ∈ reg, (kv.2.map (fun c => c.id)).Nodup

/-- A component with the given id, runtime type tag and payload, a no-op
`handle_event` (the trait's default body) and an always-true `should_update`. -/
def mkComp (i ty : Nat) : Component S E :=
  ⟨i, ty, 0, fun p e s => ⟨p, e, s, []⟩, fun _ => true⟩

/-- Observable shape of a registry: layer keys with the ids mounted in order. -/
def idsOf (reg : Layers S E) : List (Int × List Nat) :=
  reg.map (fun kv => (kv.1, kv.2.map (fun c => c.id)))

/-- A component whose user-level `should_update` is constantly `false`. -/
def compNoUpdate : Component Unit Unit :=
  ⟨2, 10, 0, fun p e s => ⟨p, e, s, []⟩, fun _ => false⟩

/-- Re-binding every mounted component's `should_update` hook. -/
def mapShouldUpdate (f : Component S E → S → Bool) (reg : Layers S E) : Layers S E :=
  reg.map (fun kv => (kv.1, kv.2.map (fun c => { c with should_update := f c })))

/-- A component that appends `1` to the shared log on every `handle_event`
call, leaving the event unchanged. -/
def compLogger : Component (List Nat) Unit :=
  ⟨1, 10, 0, fun p e s => ⟨p, e, s ++ [1], []⟩, fun _ => true⟩

/-- A component that consumes every event (leaves `Event::None` in the
access). -/
def compConsumer : Component Unit Unit :=
  ⟨5, 10, 0, fun p _ s => ⟨p, Event.none, s, []⟩, fun _ => true⟩

/-- A two-layer compositor: a no-op component (id 6) on layer 0 and a
consuming component (id 5) on layer 1. -/
def compW : Compositor Unit Unit :=
  ⟨[((0 : Int), [mkComp 6 10]), ((1 : Int), [compConsumer])], (), false⟩

/-! ### List helper lemmas for `swap_remove` -/

theorem set_perm_eraseIdx_append {α : Type} :
    ∀ (l : List α) (p : Nat) (a : α), p < l.length →
      (l.set p a).Perm (l.eraseIdx p ++ [a])
  | x :: xs, 0, a, _ => (List.perm_append_singleton a xs).symm
  | x :: xs, p + 1, a, h =>
    (set_perm_eraseIdx_append xs p a (by simpa using h)).cons x

theorem eraseIdx_append_self_perm {α : Type} :
    ∀ (l : List α) (p : Nat) (h : p < l.length),
      (l.eraseIdx p ++ [l[p]]).Perm l
  | x :: xs, 0, _ => List.perm_append_singleton x xs
  | x :: xs, p + 1, h =>
    (eraseIdx_append_self_perm xs p (by simpa using h)).cons x

theorem swapRemove_perm_eraseIdx {α : Type} (l : List α) (p : Nat)
    (h : p < l.length) : (swapRemove l p).Perm (l.eraseIdx p) := by
  rcases List.eq_nil_or_concat l with rfl | ⟨init, a, rfl⟩
  · simp at h
  · simp only [List.concat_eq_append] at h ⊢
    have hsw : swapRemove (init ++ [a]) p = ((init ++ [a]).set p a).dropLast := by
      simp only [swapRemove, List.getLast?_concat]
    have hlen : p < init.length + 1 := by simpa using h
    rw [hsw]
    rcases Nat.lt_or_ge p init.length with hp | hp
    · rw [List.set_append, if_pos hp, List.dropLast_concat,
        List.eraseIdx_append_of_lt_length hp]
      exact set_perm_eraseIdx_append init p a hp
    · have hpe : p = init.length := by omega
      rw [List.set_append, if_neg (by omega)]
      rw [List.eraseIdx_append_of_length_le (by omega)]
      simp [hpe]

theorem swapRemove_append_self_perm {α : Type} (l : List α) (p : Nat)
    (h : p < l.length) : (swapRemove l p ++ [l[p]]).Perm l :=
  (((swapRemove_perm_eraseIdx l p h).append_right [l[p]]).trans
    (eraseIdx_append_self_perm l p h))

/-! ### Registry helper lemmas -/

theorem findLayer_setLayer_ne (reg : Layers S E) (l : Int)
    (v : List (Component S E)) (l' : Int) (h : l' ≠ l) :
    findLayer (setLayer reg l v) l' = findLayer reg l' := by
  induction reg with
  | nil => rfl
  | cons kv rest ih =>
    obtain ⟨k, w⟩ := kv
    by_cases hk : k = l
    · rw [setLayer, if_pos hk]
      simp only [findLayer]
      rw [if_neg (by omega), if_neg (by omega)]
      exact ih
    · rw [setLayer, if_neg hk]
      simp only [findLayer]
      by_cases hk' : k = l'
      · rw [if_pos hk', if_pos hk']
      · rw [if_neg hk', if_neg hk']
        exact ih

/-! ### Claim theorems -/

/-- C10: for an `EventAccess` holding `e`: `is_consumed()` is true exactly when
the held event is `Event::None`; `consume()` returns `e` and leaves the access
holding `None`, so a second `consume()` returns `None`; and `replace(None)`
returns `e` while leaving the access consumed. -/
theorem eventAccess_consume_replace_spec (E : Type) (e : Event E) :
    ((⟨e⟩ : EventAccess E).is_consumed = true ↔ e = Event.none)
    ∧ (⟨e⟩ : EventAccess E).consume = (e, ⟨Event.none⟩)
    ∧ ((⟨e⟩ : EventAccess E).consume.2).consume = (Event.none, (⟨Event.none⟩ : EventAccess E))
    ∧ (⟨e⟩ : EventAccess E).replace Event.none = (e, ⟨Event.none⟩)
    ∧ ((⟨e⟩ : EventAccess E).replace Event.none).2.is_consumed = true := by
  refine ⟨?_, rfl, rfl, rfl, rfl⟩
  cases e <;> simp [EventAccess.is_consumed, isConsumedB]

/-- C9: when the layer key was never created, `remove_at` hits the
`.get_mut(&layer_id).unwrap()` error branch (modelled by `none`) instead of
returning `false`; the branch is reachable from the public interface. -/
theorem remove_at_missing_layer_hits_unwrap (S E : Type) (reg : Layers S E)
    (l : Int) (i : Nat) (h : findLayer reg l = Option.none) :
    remove_at reg l i = Option.none := by
  simp [remove_at, h]

theorem remove_at_missing_layer_hits_unwrap_witness :
    findLayer ([] : Layers Unit Unit) 0 = Option.none ∧
      remove_at ([] : Layers Unit Unit) 0 1 = Option.none :=
  ⟨rfl, remove_at_missing_layer_hits_unwrap Unit Unit [] 0 1 rfl⟩

/-- C7: `remove_at` on an existing layer that does not contain the id removes
nothing yet still returns `true` (the source returns `true` unconditionally),
contradicting its own doc comment and the claim that the result is `false`
when the id was absent. -/
theorem remove_at_true_even_when_absent :
    (remove_at [((0 : Int), [mkComp (S := Unit) (E := Unit) 1 10])] 0 2).map
        (fun r => (idsOf r.1, r.2)) =
      Option.some ([(0, [1])], true) := rfl

/-- C2 counterexample: with layer 0 holding ids `[1, 2]`, a `take_at` for id 1
under the wrong runtime type returns nothing but reorders the layer to
`[2, 1]`: the registry is not left observably identical (component 1 is no
longer at its old position). -/
theorem take_at_mismatch_not_identical :
    (take_at [((0 : Int), [mkComp (S := Unit) (E := Unit) 1 10, mkComp 2 20])] 0 99 1).2
        = Option.none
    ∧ idsOf (take_at [((0 : Int), [mkComp (S := Unit) (E := Unit) 1 10, mkComp 2 20])] 0 99 1).1
        = [(0, [2, 1])]
    ∧ idsOf [((0 : Int), [mkComp (S := Unit) (E := Unit) 1 10, mkComp 2 20])]
        = [(0, [1, 2])] :=
  ⟨rfl, rfl, rfl⟩

/-- C2 amended: `take_at` with a mismatched concrete type returns nothing and
destroys no state — the component is re-mounted in the same layer and the
layer keeps exactly the same components as a multiset, other layers are
untouched — but the position may change: the taken component is pushed to the
end of the layer (`swap_remove` having moved the formerly-last component into
its old slot). -/
theorem take_at_mismatch_keeps_component (reg : Layers S E) (l : Int) (ty i : Nat)
    (layer : List (Component S E)) (p : Nat) (c : Component S E)
    (hl : findLayer reg l = Option.some layer)
    (hp : findPos (fun c => c.id == i) layer = Option.some p)
    (hc : layer[p]? = Option.some c)
    (hty : c.tyid ≠ ty) :
    (take_at reg l ty i).2 = Option.none
    ∧ (take_at reg l ty i).1 = setLayer reg l (swapRemove layer p ++ [c])
    ∧ (swapRemove layer p ++ [c]).Perm layer
    ∧ (∀ l', l' ≠ l → findLayer (take_at reg l ty i).1 l' = findLayer reg l') := by
  have hplen : p < layer.length := by
    rcases List.getElem?_eq_some_iff.mp hc with ⟨h1, _⟩
    exact h1
  have hpc : layer[p] = c := by
    rcases List.getElem?_eq_some_iff.mp hc with ⟨h1, h2⟩
    exact h2
  have hta : take_at reg l ty i = (setLayer reg l (swapRemove layer p ++ [c]), Option.none) := by
    simp only [take_at, hl, hp, hc, if_neg hty]
  refine ⟨by rw [hta], by rw [hta], ?_, ?_⟩
  · have := swapRemove_append_self_perm layer p hplen
    rwa [hpc] at this
  · intro l' hl'
    rw [hta]
    exact findLayer_setLayer_ne reg l _ l' hl'

/-! ### Run-loop lemmas and claims -/

theorem cycleCore_pre_trace (c0 : Compositor S E) (e : Event E)
    (pre : List (TraceItem E)) :
    (cycleCore c0 e pre).1 = (cycleCore c0 e []).1
    ∧ (cycleCore c0 e pre).2.1 = pre ++ (cycleCore c0 e []).2.1
    ∧ (cycleCore c0 e pre).2.2 = (cycleCore c0 e []).2.2 := by
  simp only [cycleCore]
  split <;> simp

theorem cycleCore_render_last (c0 : Compositor S E) (e : Event E)
    (pre : List (TraceItem E)) (h : (cycleCore c0 e pre).2.2 = false) :
    ∃ tr, (cycleCore c0 e pre).2.1 =
      tr ++ [TraceItem.render (renderIds (cycleCore c0 e pre).1.layers)] := by
  simp only [cycleCore] at h ⊢
  split at h
  · simp at h
  · next hex =>
    rw [if_neg hex]
    exact ⟨_, rfl⟩

/-- C1: dequeuing `Event::Exit` does not end the loop.  With a single no-op
component mounted and the realized input `[Exit, Tick]`, the loop dispatches
`Exit` to the component, renders, then performs a further full dispatch pass
and a further render pass for the `Tick` — the run loop has no handling for
`Event::Exit` (only `Compositor::exit` sets the flag checked at
src/compositor.rs:309), contradicting `run`'s own doc comment. -/
theorem exit_event_does_not_stop_loop :
    (runLoop (⟨[((0 : Int), [mkComp 1 10])], (), false⟩ : Compositor Unit Unit)
        [Resume.event Event.exit, Resume.event Event.tick]).2 =
      [TraceItem.handled 1 Event.exit, TraceItem.render [1],
       TraceItem.handled 1 Event.tick, TraceItem.render [1]] := rfl

/-- C3 counterexample: a mounted component whose `should_update` returns
`false` still has its `view` called by the render pass (it appears in the
`render` trace item): the run loop's render pass at src/compositor.rs:313-325
draws every component unconditionally and never consults `should_update`. -/
theorem render_pass_ignores_should_update :
    compNoUpdate.should_update () = false
    ∧ (cycle (⟨[((0 : Int), [compNoUpdate])], (), false⟩ : Compositor Unit Unit)
          (Resume.event Event.tick)).2.1 =
        [TraceItem.handled 2 Event.tick, TraceItem.render [2]] :=
  ⟨rfl, rfl⟩

theorem renderIds_cons (k : Int) (v : List (Component S E)) (rest : Layers S E) :
    renderIds ((k, v) :: rest) = v.map (fun c => c.id) ++ renderIds rest := by
  simp [renderIds]

theorem renderIds_mapShouldUpdate (f : Component S E → S → Bool) :
    ∀ reg : Layers S E, renderIds (mapShouldUpdate f reg) = renderIds reg := by
  intro reg
  induction reg with
  | nil => rfl
  | cons kv rest ih =>
    obtain ⟨k, v⟩ := kv
    simp only [mapShouldUpdate, List.map_cons] at ih ⊢
    rw [renderIds_cons, renderIds_cons, List.map_map]
    exact congrArg₂ (· ++ ·) rfl ih

/-- C3 amended: every cycle that does not break ends with a render pass whose
draw list is `renderIds` of the post-callback registry — layers ascending,
insertion order within a layer, every mounted component — and `renderIds` is
entirely independent of the components' `should_update` hooks (no filtering
happens). -/
theorem render_pass_draws_every_component (comp : Compositor S E) (r : Resume S E)
    (h : (cycle comp r).2.2 = false) :
    (∃ tr, (cycle comp r).2.1 =
        tr ++ [TraceItem.render (renderIds (cycle comp r).1.layers)])
    ∧ ∀ (f : Component S E → S → Bool) (reg : Layers S E),
        renderIds (mapShouldUpdate f reg) = renderIds reg := by
  refine ⟨?_, fun f reg => renderIds_mapShouldUpdate f reg⟩
  rcases r with ev | cb
  · exact cycleCore_render_last comp ev [] h
  · exact cycleCore_render_last (applyCmd cb comp) Event.none [TraceItem.jobCb] h

theorem render_pass_draws_every_component_witness :
    ((cycle (⟨[((0 : Int), [mkComp 3 10])], (), false⟩ : Compositor Unit Unit)
        (Resume.event Event.tick)).2.2 = false)
    ∧ ((∃ tr, (cycle (⟨[((0 : Int), [mkComp 3 10])], (), false⟩ : Compositor Unit Unit)
          (Resume.event Event.tick)).2.1 =
        tr ++ [TraceItem.render (renderIds
          (cycle (⟨[((0 : Int), [mkComp 3 10])], (), false⟩ : Compositor Unit Unit)
            (Resume.event Event.tick)).1.layers)])
      ∧ ∀ (f : Component Unit Unit → Unit → Bool) (reg : Layers Unit Unit),
          renderIds (mapShouldUpdate f reg) = renderIds reg) :=
  ⟨rfl, render_pass_draws_every_component _ _ rfl⟩

/-- C5 counterexample: for a dequeued job result the code applies the
delivered callback BEFORE the dispatch cycle, not strictly after it.  The
trace puts `jobCb` before the `handle_event` call of the cycle, and the state
log reads `[0, 1]` (callback's `0` first, dispatch's `1` second) instead of
the `[1, 0]` the claim's ordering would produce. -/
theorem job_callback_runs_before_dispatch :
    (cycle (⟨[((0 : Int), [compLogger])], [], false⟩ : Compositor (List Nat) Unit)
        (Resume.jobCallback (Cmd.modifyState (fun s => s ++ [0])))).2.1 =
      [TraceItem.jobCb, TraceItem.handled 1 Event.none, TraceItem.render [1]]
    ∧ (cycle (⟨[((0 : Int), [compLogger])], [], false⟩ : Compositor (List Nat) Unit)
        (Resume.jobCallback (Cmd.modifyState (fun s => s ++ [0])))).1.state = [0, 1] :=
  ⟨rfl, rfl⟩

/-- C5 amended: a dequeued job result is handled by applying the delivered
callback to the compositor FIRST (`callback(&mut self)`), after which the
iteration proceeds exactly like an ordinary cycle carrying `Event::None`:
dispatch over that `None` event, then dispatch-queued callbacks, then render;
the trace is the ordinary cycle's trace with the callback application
prepended. -/
theorem job_callback_cycle_is_callback_then_none_cycle
    (comp : Compositor S E) (cb : Cmd S) :
    (cycle comp (Resume.jobCallback cb)).1 =
      (cycle (applyCmd cb comp) (Resume.event Event.none)).1
    ∧ (cycle comp (Resume.jobCallback cb)).2.1 =
        TraceItem.jobCb :: (cycle (applyCmd cb comp) (Resume.event Event.none)).2.1
    ∧ (cycle comp (Resume.jobCallback cb)).2.2 =
        (cycle (applyCmd cb comp) (Resume.event Event.none)).2.2 := by
  have h := cycleCore_pre_trace (applyCmd cb comp) (Event.none : Event E) [TraceItem.jobCb]
  exact ⟨h.1, h.2.1, h.2.2⟩

/-! ### Dispatch-order lemmas and claim C4 -/

theorem dispatchComps_append_stop (xs ys : List (Component S E)) (e : Event E) (s : S)
    (h : (dispatchComps xs e s).stop = true) :
    dispatchComps (xs ++ ys) e s =
      { dispatchComps xs e s with comps := (dispatchComps xs e s).comps ++ ys } := by
  induction xs generalizing e s with
  | nil => simp [dispatchComps] at h
  | cons c rest ih =>
      by_cases hc : isConsumedB (c.handle_event c.payload e s).event
      · simp [dispatchComps, hc]
      · have h1 : (dispatchComps rest (c.handle_event c.payload e s).event
            (c.handle_event c.payload e s).state).stop = true := by
          simpa [dispatchComps, hc] using h
        simp [dispatchComps, hc, ih _ _ h1]

theorem dispatchComps_append_no_stop (xs ys : List (Component S E)) (e : Event E) (s : S)
    (h : (dispatchComps xs e s).stop = false) :
    dispatchComps (xs ++ ys) e s =
      ⟨(dispatchComps xs e s).comps
          ++ (dispatchComps ys (dispatchComps xs e s).event
                (dispatchComps xs e s).state).comps,
        (dispatchComps ys (dispatchComps xs e s).event
          (dispatchComps xs e s).state).event,
        (dispatchComps ys (dispatchComps xs e s).event
          (dispatchComps xs e s).state).state,
        (dispatchComps xs e s).cbs
          ++ (dispatchComps ys (dispatchComps xs e s).event
                (dispatchComps xs e s).state).cbs,
        (dispatchComps xs e s).trace
          ++ (dispatchComps ys (dispatchComps xs e s).event
                (dispatchComps xs e s).state).trace,
        (dispatchComps ys (dispatchComps xs e s).event
          (dispatchComps xs e s).state).stop⟩ := by
  induction xs generalizing e s with
  | nil => rfl
  | cons c rest ih =>
      by_cases hc : isConsumedB (c.handle_event c.payload e s).event
      · simp [dispatchComps, hc] at h
      · have h1 : (dispatchComps rest (c.handle_event c.payload e s).event
            (c.handle_event c.payload e s).state).stop = false := by
          simpa [dispatchComps, hc] using h
        simp [dispatchComps, hc, ih _ _ h1]

theorem dispatchLayers_eq_flat (L : Layers S E) (e : Event E) (s : S) :
    (dispatchLayers L e s).event = (dispatchComps (flattenLayers L) e s).event
    ∧ (dispatchLayers L e s).state = (dispatchComps (flattenLayers L) e s).state
    ∧ (dispatchLayers L e s).cbs = (dispatchComps (flattenLayers L) e s).cbs
    ∧ (dispatchLayers L e s).trace = (dispatchComps (flattenLayers L) e s).trace
    ∧ (dispatchLayers L e s).stop = (dispatchComps (flattenLayers L) e s).stop := by
  induction L generalizing e s with
  | nil => exact ⟨rfl, rfl, rfl, rfl, rfl⟩
  | cons kv rest ih =>
      obtain ⟨k, cs⟩ := kv
      have hfl : flattenLayers (((k, cs) :: rest : Layers S E)) = cs ++ flattenLayers rest := by
        simp [flattenLayers]
      rw [hfl]
      by_cases hs : (dispatchComps cs e s).stop
      · rw [dispatchComps_append_stop cs (flattenLayers rest) e s hs]
        simp [dispatchLayers, hs]
      · rw [dispatchComps_append_no_stop cs (flattenLayers rest) e s
          (by simpa using hs)]
        obtain ⟨ih1, ih2, ih3, ih4, ih5⟩ :=
          ih (dispatchComps cs e s).event (dispatchComps cs e s).state
        simp [dispatchLayers, hs, ih1, ih2, ih3, ih4, ih5]

theorem dispatchComps_no_stop_visited (xs : List (Component S E)) (e : Event E) (s : S)
    (h : (dispatchComps xs e s).stop = false) :
    visitedIds (dispatchComps xs e s).trace = xs.map (fun c => c.id) := by
  induction xs generalizing e s with
  | nil => rfl
  | cons c rest ih =>
      by_cases hc : isConsumedB (c.handle_event c.payload e s).event
      · exfalso
        simp [dispatchComps, hc] at h
      · simp only [dispatchComps, hc, if_neg, Bool.false_eq_true, ite_false] at h ⊢
        simp [visitedIds] at ih ⊢
        exact ih _ _ h

theorem dispatchComps_visited_take (xs : List (Component S E)) (e : Event E) (s : S) :
    ∃ k, visitedIds (dispatchComps xs e s).trace = (xs.map (fun c => c.id)).take k := by
  induction xs generalizing e s with
  | nil => exact ⟨0, rfl⟩
  | cons c rest ih =>
      by_cases hc : isConsumedB (c.handle_event c.payload e s).event
      · exact ⟨1, by simp [dispatchComps, hc, visitedIds]⟩
      · obtain ⟨k, hk⟩ := ih (c.handle_event c.payload e s).event
          (c.handle_event c.payload e s).state
        refine ⟨k + 1, ?_⟩
        simp only [visitedIds] at hk
        simp [dispatchComps, hc, visitedIds, hk]

theorem keys_reverse_desc (reg : Layers S E)
    (h : (keys reg).Chain' (· < ·)) : (keys reg.reverse).Chain' (· > ·) := by
  have hk : keys reg.reverse = (keys reg).reverse := by simp [keys]
  rw [hk, List.chain'_reverse]
  exact h

/-- C4: the dispatch pass visits the components of `flattenDesc` — layers from
highest `LayerId` to lowest (the reverse of the ascending-key registry, third
conjunct), insertion order within a layer — as an initial segment (second
conjunct), and when the components before `c1` leave the event unconsumed and
`c1`'s handler consumes it, the visit list is exactly the components up to and
including `c1`: every later component — any `c2` in a lower layer, or later in
insertion order in the same layer — never has its `handle_event` invoked for
that event instance. -/
theorem dispatch_consumption_stops_propagation (comp : Compositor S E) (e : Event E)
    (xs : List (Component S E)) (c1 : Component S E) (ys : List (Component S E))
    (hflat : flattenDesc comp.layers = xs ++ c1 :: ys)
    (hpre : (dispatchComps xs e comp.state).stop = false)
    (hcons : isConsumedB ((c1.handle_event c1.payload
        (dispatchComps xs e comp.state).event
        (dispatchComps xs e comp.state).state).event) = true) :
    visitedIds (dispatchPass comp e).2.2 = xs.map (fun c => c.id) ++ [c1.id]
    ∧ (∀ (comp' : Compositor S E) (e' : Event E), ∃ k,
        visitedIds (dispatchPass comp' e').2.2 =
          ((flattenDesc comp'.layers).map (fun c => c.id)).take k)
    ∧ (∀ reg : Layers S E, (keys reg).Chain' (· < ·) →
        (keys reg.reverse).Chain' (· > ·)) := by
  have htr : ∀ (cp : Compositor S E) (ev : Event E), (dispatchPass cp ev).2.2 =
      (dispatchComps (flattenDesc cp.layers) ev cp.state).trace := by
    intro cp ev
    exact (dispatchLayers_eq_flat cp.layers.reverse ev cp.state).2.2.2.1
  refine ⟨?_, ?_, fun reg h => keys_reverse_desc reg h⟩
  · rw [htr, hflat, dispatchComps_append_no_stop xs (c1 :: ys) e comp.state hpre]
    simp only [dispatchComps, hcons, if_pos]
    have hvis := dispatchComps_no_stop_visited xs e comp.state hpre
    simp [visitedIds] at hvis ⊢
    simp [hvis]
  · intro comp' e'
    rw [htr]
    exact dispatchComps_visited_take (flattenDesc comp'.layers) e' comp'.state

theorem dispatch_consumption_stops_propagation_witness :
    visitedIds (dispatchPass compW Event.tick).2.2 = [5] := by
  have h := dispatch_consumption_stops_propagation compW Event.tick
    [] compConsumer [mkComp 6 10] rfl rfl rfl
  simpa using h.1

/-! ### Registry invariant lemmas and claim C8 -/

theorem mem_entryOrDefault (reg : Layers S E) (l : Int) (kv : Int × List (Component S E))
    (h : kv ∈ entryOrDefault reg l) : kv ∈ reg ∨ kv.2 = [] := by
  induction reg with
  | nil =>
      simp only [entryOrDefault] at h
      rcases List.mem_singleton.mp h with rfl
      exact Or.inr rfl
  | cons hd rest ih =>
      obtain ⟨k, v⟩ := hd
      simp only [entryOrDefault] at h
      by_cases h1 : l < k
      · rw [if_pos h1] at h
        rcases List.mem_cons.mp h with rfl | h2
        · exact Or.inr rfl
        · exact Or.inl h2
      · rw [if_neg h1] at h
        by_cases h2 : l = k
        · rw [if_pos h2] at h
          exact Or.inl h
        · rw [if_neg h2] at h
          rcases List.mem_cons.mp h with rfl | h3
          · exact Or.inl (List.mem_cons_self _ _)
          · rcases ih h3 with h4 | h4
            · exact Or.inl (List.mem_cons_of_mem _ h4)
            · exact Or.inr h4

theorem mem_setLayer (reg : Layers S E) (l : Int) (v : List (Component S E))
    (kv : Int × List (Component S E)) (h : kv ∈ setLayer reg l v) :
    kv ∈ reg ∨ kv.2 = v := by
  induction reg with
  | nil => simp [setLayer] at h
  | cons hd rest ih =>
      obtain ⟨k, w⟩ := hd
      simp only [setLayer] at h
      rcases List.mem_cons.mp h with h1 | h1
      · by_cases hk : k = l
        · rw [if_pos hk] at h1
          exact Or.inr (by rw [h1])
        · rw [if_neg hk] at h1
          exact Or.inl (by rw [h1]; exact List.mem_cons_self _ _)
      · rcases ih h1 with h2 | h2
        · exact Or.inl (List.mem_cons_of_mem _ h2)
        · exact Or.inr h2

theorem findLayer_mem (reg : Layers S E) (l : Int) (u : List (Component S E))
    (h : findLayer reg l = Option.some u) : (l, u) ∈ reg := by
  induction reg with
  | nil => simp [findLayer] at h
  | cons hd rest ih =>
      obtain ⟨k, w⟩ := hd
      simp only [findLayer] at h
      by_cases hk : k = l
      · rw [if_pos hk] at h
        obtain rfl : w = u := by simpa using h
        subst hk
        exact List.mem_cons_self _ _
      · rw [if_neg hk] at h
        exact List.mem_cons_of_mem _ (ih h)

theorem uniqueIds_entryOrDefault (reg : Layers S E) (l : Int)
    (hu : UniqueIds reg) : UniqueIds (entryOrDefault reg l) := by
  intro kv hkv
  rcases mem_entryOrDefault reg l kv hkv with h | h
  · exact hu kv h
  · rw [h]
    exact List.nodup_nil

theorem uniqueIds_setLayer (reg : Layers S E) (l : Int) (v : List (Component S E))
    (hu : UniqueIds reg) (hv : (v.map (fun c => c.id)).Nodup) :
    UniqueIds (setLayer reg l v) := by
  intro kv hkv
  rcases mem_setLayer reg l v kv hkv with h | h
  · exact hu kv h
  · rw [h]
    exact hv

theorem getLayerD_nodup (reg : Layers S E) (l : Int) (hu : UniqueIds reg) :
    ((getLayerD reg l).map (fun c => c.id)).Nodup := by
  unfold getLayerD
  rcases hfl : findLayer reg l with _ | u
  · exact List.nodup_nil
  · exact hu (l, u) (findLayer_mem reg l u hfl)

theorem nodup_append_new_id (layer : List (Component S E)) (c : Component S E)
    (hn : (layer.map (fun c => c.id)).Nodup)
    (hnot : ∀ x ∈ layer, x.id ≠ c.id) :
    ((layer ++ [c]).map (fun x => x.id)).Nodup := by
  rw [List.map_append]
  refine List.nodup_append.mpr ⟨hn, List.nodup_singleton _, ?_⟩
  intro a ha hb
  rcases List.mem_map.mp ha with ⟨x, hx, rfl⟩
  rcases List.mem_singleton.mp (by simpa using hb) with h
  exact hnot x hx h

theorem nodup_filter_ids (layer : List (Component S E)) (q : Component S E → Bool)
    (hn : (layer.map (fun c => c.id)).Nodup) :
    ((layer.filter q).map (fun c => c.id)).Nodup :=
  ((List.filter_sublist layer).map (fun c => c.id)).nodup hn

theorem insert_at_preserves_unique (reg : Layers S E) (l : Int) (c : Component S E)
    (hu : UniqueIds reg) : UniqueIds (insert_at reg l c).1 := by
  unfold insert_at
  have hu1 := uniqueIds_entryOrDefault reg l hu
  by_cases hany : (getLayerD (entryOrDefault reg l) l).any (fun x => x.id == c.id)
  · simpa [hany] using hu1
  · rw [Bool.not_eq_true] at hany
    simp only [hany, Bool.false_eq_true, if_false, ite_false]
    refine uniqueIds_setLayer _ l _ hu1 ?_
    refine nodup_append_new_id _ c (getLayerD_nodup _ l hu1) ?_
    intro x hx
    have := List.any_eq_false.mp hany x hx
    simpa using this

theorem replace_at_preserves_unique (reg : Layers S E) (l : Int) (c : Component S E)
    (hu : UniqueIds reg) : UniqueIds (replace_at reg l c) := by
  unfold replace_at
  have hu1 := uniqueIds_entryOrDefault reg l hu
  refine uniqueIds_setLayer _ l _ hu1 ?_
  refine nodup_append_new_id _ c
    (nodup_filter_ids _ _ (getLayerD_nodup _ l hu1)) ?_
  intro x hx
  have := (List.mem_filter.mp hx).2
  simpa using this

theorem remove_at_preserves_unique (reg reg' : Layers S E) (l : Int) (i : Nat) (b : Bool)
    (h : remove_at reg l i = Option.some (reg', b)) (hu : UniqueIds reg) :
    UniqueIds reg' := by
  unfold remove_at at h
  rcases hfl : findLayer reg l with _ | layer
  · rw [hfl] at h
    simp at h
  · rw [hfl] at h
    obtain rfl : setLayer reg l (layer.filter (fun c => !(c.id == i))) = reg' := by
      simpa using congrArg Prod.fst (Option.some.inj h)
    refine uniqueIds_setLayer _ l _ hu ?_
    exact nodup_filter_ids _ _ (hu (l, layer) (findLayer_mem reg l layer hfl))

theorem remove_all_preserves_unique (reg : Layers S E) (i : Nat)
    (hu : UniqueIds reg) : UniqueIds (remove_all reg i) := by
  intro kv hkv
  rcases List.mem_map.mp hkv with ⟨kv', hkv', rfl⟩
  exact nodup_filter_ids _ _ (hu kv' hkv')

theorem take_at_preserves_unique (reg : Layers S E) (l : Int) (ty i : Nat)
    (hu : UniqueIds reg) : UniqueIds (take_at reg l ty i).1 := by
  unfold take_at
  rcases hfl : findLayer reg l with _ | layer
  · simp only [hfl]
    exact hu
  · simp only [hfl]
    rcases hp : findPos (fun c => c.id == i) layer with _ | p
    · simp only [hp]
      exact hu
    · simp only [hp]
      rcases hc : layer[p]? with _ | c
      · simp only [hc]
        exact hu
      · simp only [hc]
        have hplen : p < layer.length := (List.getElem?_eq_some_iff.mp hc).1
        have hpc : layer[p] = c := (List.getElem?_eq_some_iff.mp hc).2
        have hlnodup : (layer.map (fun x => x.id)).Nodup :=
          hu (l, layer) (findLayer_mem reg l layer hfl)
        by_cases hty : c.tyid = ty
        · simp only [if_pos hty]
          refine uniqueIds_setLayer _ l _ hu ?_
          have hperm := (swapRemove_perm_eraseIdx layer p hplen).map (fun x => x.id)
          rw [hperm.nodup_iff]
          exact ((layer.eraseIdx_sublist p).map (fun x => x.id)).nodup hlnodup
        · simp only [if_neg hty]
          refine uniqueIds_setLayer _ l _ hu ?_
          have hperm := (swapRemove_append_self_perm layer p hplen).map (fun x => x.id)
          rw [hpc] at hperm
          rw [hperm.nodup_iff]
          exact hlnodup

theorem applyOp_preserves_unique (op : Op S E) (reg reg' : Layers S E)
    (h : applyOp op reg = Option.some reg') (hu : UniqueIds reg) :
    UniqueIds reg' := by
  cases op with
  | insertOp l c =>
      obtain rfl : (insert_at reg l c).1 = reg' := by simpa [applyOp] using h
      exact insert_at_preserves_unique reg l c hu
  | replaceOp l c =>
      obtain rfl : replace_at reg l c = reg' := by simpa [applyOp] using h
      exact replace_at_preserves_unique reg l c hu
  | removeOp l i =>
      simp only [applyOp, Option.map_eq_some'] at h
      obtain ⟨⟨r, b⟩, hr, rfl⟩ := h
      exact remove_at_preserves_unique reg r l i b hr hu
  | removeAllOp i =>
      obtain rfl : remove_all reg i = reg' := by simpa [applyOp] using h
      exact remove_all_preserves_unique reg i hu
  | takeOp l ty i =>
      obtain rfl : (take_at reg l ty i).1 = reg' := by simpa [applyOp] using h
      exact take_at_preserves_unique reg l ty i hu

theorem runOps_preserves_unique :
    ∀ (ops : List (Op S E)) (reg reg' : Layers S E),
      runOps ops reg = Option.some reg' → UniqueIds reg → UniqueIds reg'
  | [], reg, reg', h, hu => by
      obtain rfl : reg = reg' := by simpa [runOps] using h
      exact hu
  | op :: rest, reg, reg', h, hu => by
      simp only [runOps] at h
      rcases hop : applyOp op reg with _ | reg1
      · rw [hop] at h
        simp at h
      · rw [hop] at h
        exact runOps_preserves_unique rest reg1 reg' h
          (applyOp_preserves_unique op reg reg1 hop hu)

theorem findLayer_none_not_mem (reg : Layers S E) (l : Int)
    (h : findLayer reg l = Option.none) : l ∉ keys reg := by
  induction reg with
  | nil => simp [keys]
  | cons hd rest ih =>
      obtain ⟨k, w⟩ := hd
      simp only [findLayer] at h
      by_cases hk : k = l
      · rw [if_pos hk] at h
        simp at h
      · rw [if_neg hk] at h
        simp only [keys, List.map_cons, List.mem_cons]
        rintro (rfl | hm)
        · exact hk rfl
        · exact ih h hm

theorem findLayer_none_of_not_mem (reg : Layers S E) (l : Int)
    (h : l ∉ keys reg) : findLayer reg l = Option.none := by
  induction reg with
  | nil => rfl
  | cons hd rest ih =>
      obtain ⟨k, w⟩ := hd
      have hkeq : keys (((k, w) :: rest : Layers S E)) = k :: keys rest := rfl
      rw [hkeq] at h
      have h1 : l ≠ k := fun he => h (he ▸ List.mem_cons_self k _)
      have h2 : l ∉ keys rest := fun hm => h (List.mem_cons_of_mem _ hm)
      simp only [findLayer]
      rw [if_neg (fun he : k = l => h1 he.symm)]
      exact ih h2

theorem entryOrDefault_eq_self (reg : Layers S E) (l : Int)
    (hsort : (keys reg).Pairwise (· < ·)) (hmem : l ∈ keys reg) :
    entryOrDefault reg l = reg := by
  induction reg with
  | nil => simp [keys] at hmem
  | cons hd rest ih =>
      obtain ⟨k, w⟩ := hd
      have hkeq : keys (((k, w) :: rest : Layers S E)) = k :: keys rest := rfl
      rw [hkeq] at hsort hmem
      obtain ⟨hlt, htail⟩ := List.pairwise_cons.mp hsort
      simp only [entryOrDefault]
      rcases List.mem_cons.mp hmem with rfl | hm
      · rw [if_neg (lt_irrefl _), if_pos rfl]
      · have hkl : k < l := hlt l hm
        rw [if_neg (by omega), if_neg (by omega), ih htail hm]

theorem findLayer_entry_not_mem (reg : Layers S E) (l : Int)
    (h : l ∉ keys reg) : findLayer (entryOrDefault reg l) l = Option.some [] := by
  induction reg with
  | nil => simp [entryOrDefault, findLayer]
  | cons hd rest ih =>
      obtain ⟨k, w⟩ := hd
      have hkeq : keys (((k, w) :: rest : Layers S E)) = k :: keys rest := rfl
      rw [hkeq] at h
      have h1 : l ≠ k := fun he => h (he ▸ List.mem_cons_self k _)
      have h2 : l ∉ keys rest := fun hm => h (List.mem_cons_of_mem _ hm)
      simp only [entryOrDefault]
      by_cases hlt : l < k
      · rw [if_pos hlt]
        simp [findLayer]
      · rw [if_neg hlt, if_neg h1]
        simp only [findLayer]
        rw [if_neg (fun he : k = l => h1 he.symm)]
        exact ih h2

theorem findLayer_entryOrDefault (reg : Layers S E) (l : Int)
    (hsort : (keys reg).Pairwise (· < ·)) :
    findLayer (entryOrDefault reg l) l = Option.some (getLayerD reg l) := by
  by_cases hmem : l ∈ keys reg
  · rw [entryOrDefault_eq_self reg l hsort hmem]
    rcases hfl : findLayer reg l with _ | u
    · exact absurd hmem (findLayer_none_not_mem reg l hfl)
    · simp [getLayerD, hfl]
  · rw [findLayer_entry_not_mem reg l hmem]
    simp [getLayerD, findLayer_none_of_not_mem reg l hmem]

theorem findLayer_setLayer_self (reg : Layers S E) (l : Int)
    (u v : List (Component S E)) (h : findLayer reg l = Option.some u) :
    findLayer (setLayer reg l v) l = Option.some v := by
  induction reg with
  | nil => simp [findLayer] at h
  | cons hd rest ih =>
      obtain ⟨k, w⟩ := hd
      simp only [findLayer] at h
      simp only [setLayer]
      by_cases hk : k = l
      · rw [if_pos hk]
        simp [findLayer, hk]
      · rw [if_neg hk] at h ⊢
        simp only [findLayer, if_neg hk]
        exact ih h

/-- C8: (1) every sequence of `insert_at` / `replace_at` / `remove_at` /
`remove_all` / `take_at` operations that runs without panicking from the empty
registry keeps component ids unique within every layer; (2) on a sorted
registry, `insert_at` with an id already present in the target layer returns
the un-mounted component and leaves the registry unchanged; (3) `replace_at`
leaves the layer holding the old occupants minus the colliding id plus the new
instance at the end — in particular the new instance is the unique occupant
under its id. -/
theorem registry_per_layer_id_uniqueness :
    (∀ (ops : List (Op S E)) (reg' : Layers S E),
        runOps ops [] = Option.some reg' → UniqueIds reg')
    ∧ (∀ (reg : Layers S E) (l : Int) (c : Component S E),
        (keys reg).Pairwise (· < ·) →
        (getLayerD reg l).any (fun x => x.id == c.id) = true →
        insert_at reg l c = (reg, Option.some c))
    ∧ (∀ (reg : Layers S E) (l : Int) (c : Component S E),
        (keys reg).Pairwise (· < ·) →
        findLayer (replace_at reg l c) l =
          Option.some ((getLayerD reg l).filter (fun x => !(x.id == c.id)) ++ [c])
        ∧ ((getLayerD reg l).filter (fun x => !(x.id == c.id)) ++ [c]).filter
            (fun x => x.id == c.id) = [c]) := by
  refine ⟨?_, ?_, ?_⟩
  · intro ops reg' h
    refine runOps_preserves_unique ops [] reg' h ?_
    intro kv hkv
    simp at hkv
  · intro reg l c hsort hdup
    have hfl : ∃ u, findLayer reg l = Option.some u := by
      rcases hq : findLayer reg l with _ | u
      · exfalso
        have hgd : getLayerD reg l = [] := by simp [getLayerD, hq]
        rw [hgd] at hdup
        simp at hdup
      · exact ⟨u, rfl⟩
    obtain ⟨u, hu⟩ := hfl
    have hmem : l ∈ keys reg :=
      List.mem_map.mpr ⟨(l, u), findLayer_mem reg l u hu, rfl⟩
    have hself : entryOrDefault reg l = reg := entryOrDefault_eq_self reg l hsort hmem
    simp [insert_at, hself, hdup]
  · intro reg l c hsort
    have hfe := findLayer_entryOrDefault reg l hsort
    constructor
    · simp only [replace_at]
      have hgd : getLayerD (entryOrDefault reg l) l = getLayerD reg l := by
        simp [getLayerD, hfe]
      rw [hgd]
      exact findLayer_setLayer_self _ l _ _ hfe
    · rw [List.filter_append]
      have h1 : ((getLayerD reg l).filter (fun x => !(x.id == c.id))).filter
          (fun x => x.id == c.id) = [] := by
        rw [List.filter_eq_nil_iff]
        intro a ha
        have := (List.mem_filter.mp ha).2
        simpa using this
      rw [h1]
      simp

theorem registry_per_layer_id_uniqueness_witness :
    UniqueIds [((0 : Int), [mkComp (S := Unit) (E := Unit) 1 20, mkComp 2 10])]
    ∧ insert_at [((0 : Int), [mkComp (S := Unit) (E := Unit) 1 20, mkComp 2 10])]
        0 (mkComp 1 30)
        = ([((0 : Int), [mkComp 1 20, mkComp 2 10])], Option.some (mkComp 1 30))
    ∧ findLayer (replace_at [((0 : Int), [mkComp (S := Unit) (E := Unit) 1 20, mkComp 2 10])]
          0 (mkComp 3 10)) 0 =
        Option.some ((getLayerD [((0 : Int), [mkComp (S := Unit) (E := Unit) 1 20, mkComp 2 10])] 0).filter
            (fun x => !(x.id == (mkComp (S := Unit) (E := Unit) 3 10).id)) ++ [mkComp 3 10]) := by
  refine ⟨?_, ?_, ?_⟩
  · exact (registry_per_layer_id_uniqueness (S := Unit) (E := Unit)).1
      [Op.insertOp 0 (mkComp 1 10), Op.replaceOp 0 (mkComp 1 20),
        Op.insertOp 0 (mkComp 2 10)] _ rfl
  · exact (registry_per_layer_id_uniqueness (S := Unit) (E := Unit)).2.1
      _ 0 (mkComp 1 30) (by simp [keys]) rfl
  · exact ((registry_per_layer_id_uniqueness (S := Unit) (E := Unit)).2.2
      _ 0 (mkComp 3 10) (by simp [keys])).1

/-! ### Merged-stream lemmas and the tick claims -/

theorem flatten_get_set_perm {α : Type} :
    ∀ (srcs : List (List α)) (i : Nat) (x : α) (rest : List α),
      srcs[i]? = Option.some (x :: rest) →
      srcs.flatten.Perm (x :: (srcs.set i rest).flatten)
  | [], i, x, rest, h => by simp at h
  | hd :: tl, 0, x, rest, h => by
      obtain rfl : hd = x :: rest := by simpa using h
      simp
  | hd :: tl, i + 1, x, rest, h => by
      have ih := flatten_get_set_perm tl i x rest (by simpa using h)
      simp only [List.set_cons_succ, List.flatten_cons]
      exact (ih.append_left hd).trans List.perm_middle

theorem mergeOf_perm {α : Type} {srcs : List (List α)} {out : List α}
    (h : MergeOf srcs out) : out.Perm srcs.flatten := by
  induction h with
  | done srcs h =>
      rw [List.flatten_eq_nil_iff.mpr h]
  | step srcs i x rest out hg hm ih =>
      exact (ih.cons x).trans (flatten_get_set_perm srcs i x rest hg).symm

/-- C6 counterexample: with a tick interval of zero, no user streams and no
jobs, the merged source set still delivers the single start-up
`Event::Tick` (src/compositor.rs:258-259), and the loop dispatches it to a
mounted component's `handle_event` and renders — refuting "no Tick event is
ever produced". -/
theorem initial_tick_fires_with_zero_timeout :
    MergeOf (setupSources (S := Unit) (E := Unit) 0 0 [] [])
      [Resume.event Event.tick]
    ∧ (runLoop (⟨[((0 : Int), [mkComp 1 10])], (), false⟩ : Compositor Unit Unit)
        [Resume.event Event.tick]).2 =
      [TraceItem.handled 1 Event.tick, TraceItem.render [1]] := by
  constructor
  · have h1 : setupSources (S := Unit) (E := Unit) 0 0 [] [] =
        [[Resume.event Event.tick], []] := rfl
    rw [h1]
    refine MergeOf.step _ 0 (Resume.event Event.tick) [] [] rfl ?_
    have h2 : ([[Resume.event Event.tick], []] :
        List (List (Resume Unit Unit))).set 0 [] = [[], []] := rfl
    rw [h2]
    refine MergeOf.done _ ?_
    intro l hl
    rcases List.mem_cons.mp hl with rfl | h3
    · rfl
    · rcases List.mem_cons.mp h3 with rfl | h4
      · rfl
      · simp at h4
  · rfl

/-- C6 amended: with a tick interval of zero the periodic tick stream is never
installed; the only `Tick` the compositor itself produces is the single
start-up tick, so any realized merged input sequence contains exactly one
`Event::Tick` provided the user-supplied streams emit none. -/
theorem zero_timeout_only_initial_tick {S E : Type} (k : Nat)
    (user : List (List (Event E))) (jobs : List (Cmd S))
    (inputs : List (Resume S E))
    (huser : ∀ l ∈ user, ∀ e ∈ l, e ≠ Event.tick)
    (hm : MergeOf (setupSources 0 k user jobs) inputs) :
    inputs.countP isTickResume = 1 := by
  have hperm := mergeOf_perm hm
  rw [hperm.countP_eq isTickResume, List.countP_flatten]
  have huser0 : ∀ l ∈ user,
      List.countP isTickResume ((l.map Resume.event : List (Resume S E))) = 0 := by
    intro l hl
    rw [List.countP_map, List.countP_eq_zero]
    intro e he hcontra
    cases e with
    | user x => simp [isTickResume, Function.comp] at hcontra
    | terminal t => simp [isTickResume, Function.comp] at hcontra
    | tick => exact huser l hl _ he rfl
    | exit => simp [isTickResume, Function.comp] at hcontra
    | none => simp [isTickResume, Function.comp] at hcontra
  have hzero : (List.map (List.countP isTickResume)
      (user.map (fun l => (l.map Resume.event : List (Resume S E))))).sum = 0 := by
    apply List.sum_eq_zero
    intro x hx
    rw [List.map_map] at hx
    obtain ⟨l, hl, rfl⟩ := List.mem_map.mp hx
    exact huser0 l hl
  have hjobs0 :
      List.countP isTickResume ((jobs.map Resume.jobCallback : List (Resume S E))) = 0 := by
    rw [List.countP_map, List.countP_eq_zero]
    intro c hc hcontra
    simp [isTickResume, Function.comp] at hcontra
  simp only [setupSources, if_pos rfl, List.map_append, List.sum_append, hzero]
  simp [hjobs0, isTickResume]

theorem zero_timeout_only_initial_tick_witness :
    ([Resume.event Event.tick] : List (Resume Unit Unit)).countP isTickResume = 1 := by
  refine zero_timeout_only_initial_tick 5 [] [] [Resume.event Event.tick] ?_ ?_
  · intro l hl
    simp at hl
  · have h1 : setupSources (S := Unit) (E := Unit) 0 5 [] [] =
        [[Resume.event Event.tick], []] := rfl
    rw [h1]
    refine MergeOf.step _ 0 (Resume.event Event.tick) [] [] rfl ?_
    have h2 : ([[Resume.event Event.tick], []] :
        List (List (Resume Unit Unit))).set 0 [] = [[], []] := rfl
    rw [h2]
    refine MergeOf.done _ ?_
    intro l hl
    rcases List.mem_cons.mp hl with rfl | h3
    · rfl
    · rcases List.mem_cons.mp h3 with rfl | h4
      · rfl
      · simp at h4

theorem take_at_mismatch_keeps_component_witness :
    (take_at [((0 : Int), [mkComp (S := Unit) (E := Unit) 1 10, mkComp 2 20])] 0 99 2).2
        = Option.none
    ∧ (take_at [((0 : Int), [mkComp (S := Unit) (E := Unit) 1 10, mkComp 2 20])] 0 99 2).1
        = setLayer [((0 : Int), [mkComp 1 10, mkComp 2 20])] 0
            (swapRemove [mkComp 1 10, mkComp 2 20] 1 ++ [mkComp 2 20])
    ∧ (swapRemove [mkComp (S := Unit) (E := Unit) 1 10, mkComp 2 20] 1
        ++ [mkComp 2 20]).Perm [mkComp 1 10, mkComp 2 20] := by
  have h := take_at_mismatch_keeps_component
    [((0 : Int), [mkComp (S := Unit) (E := Unit) 1 10, mkComp 2 20])] 0 99 2
    [mkComp 1 10, mkComp 2 20] 1 (mkComp 2 20) rfl rfl rfl (by decide)
  exact ⟨h.1, h.2.1, h.2.2.1⟩

end Gland
